import Mathlib

/-
Verification of the data-transactional-log storage and transaction core.
The definitions below are a shallow embedding of the TypeScript sources
in src/TransactionalLog.ts and src/Storages.ts: entry lists stand for the
decoded line sequence of the backing files, and each stateful class is
embedded as explicit state passing over a structure mirroring its fields.
-/

namespace TLog

/-- Modelled from the spec: TransactionState lives in src/Core.ts, which is
absent from the sources; the spec gives the states Open, Commited, Aborted. -/
inductive TransactionState : Type
  | Open
  | Commited
  | Aborted
deriving DecidableEq, Repr

/-- One decoded log entry, the four variants of LogEntry in Storages.ts:
data carries (transactionId, Open, value), commitE carries
(transactionId, Commited, commitSeq), abortE carries (transactionId, Aborted),
resetE is the bare ResetToken line. -/
inductive LogEntry (T : Type) : Type
  | data (tid : Nat) (v : T)
  | commitE (tid : Nat) (seq : Nat)
  | abortE (tid : Nat)
  | resetE
deriving DecidableEq, Repr

/-- The Transaction objects of TransactionalLog.ts: readonly id, the block
buffer, and the state. Emitted replay transactions carry the commit sequence
number in the id field, as the source constructor call does. -/
structure Transaction (T : Type) : Type where
  id : Nat
  blocks : List T
  state : TransactionState
deriving DecidableEq, Repr

/-! ### Association list helpers standing for the JS Map objects -/

/-- Lookup in an association list keyed by transaction id (Map.get). -/
def alookup {α : Type} : List (Nat × α) → Nat → Option α
  | [], _ => none
  | (k, v) :: rest, t => if k = t then some v else alookup rest t

/-- The Data branch of the replay tap: fetch the accumulator for the id,
create it when missing, and push the block (Map.get / Map.set / push). -/
def pushBlock {T : Type} : List (Nat × List T) → Nat → T → List (Nat × List T)
  | [], t, v => [(t, [v])]
  | (k, bs) :: rest, t, v =>
    if k = t then (k, bs ++ [v]) :: rest else (k, bs) :: pushBlock rest t v

/-- Map.delete on an association list. -/
def removeTid {T : Type} : List (Nat × List T) → Nat → List (Nat × List T)
  | [], _ => []
  | (k, bs) :: rest, t => if k = t then rest else (k, bs) :: removeTid rest t

/-! ### The readTransactions replay (TransactionalLog.readTransactions) -/

/-- One step of the tap callback in readTransactions: Data pushes a block,
Abort deletes the accumulator, Commit deletes it (after the transient move
into the commited map, collapsed here because the emission in the map stage
reads and deletes that key immediately), Reset clears the accumulator map
only, exactly as the source tap does. -/
def tapStep {T : Type} (acc : List (Nat × List T)) : LogEntry T → List (Nat × List T)
  | .data tid v => pushBlock acc tid v
  | .abortE tid => removeTid acc tid
  | .commitE tid _ => removeTid acc tid
  | .resetE => []

/-- Folding the tap over a list of entries. -/
def tapRun {T : Type} (acc : List (Nat × List T)) (L : List (LogEntry T)) :
    List (Nat × List T) :=
  L.foldl tapStep acc

/-- The replay pipeline, instrumented with the transaction id of the commit
entry each emission comes from: every Commit entry emits one Transaction
whose id field is the commit sequence number of the entry, whose blocks are
the accumulator for the committing id (empty when absent, matching the
constructor default for an undefined Map.get), and whose state is Commited. -/
def replayT {T : Type} (acc : List (Nat × List T)) :
    List (LogEntry T) → List (Nat × Transaction T)
  | [] => []
  | e :: rest =>
    match e with
    | .commitE tid seq =>
      (tid, ⟨seq, (alookup acc tid).getD [], .Commited⟩) :: replayT (tapStep acc e) rest
    | _ => replayT (tapStep acc e) rest

/-- readTransactions with the source filter transaction.id > afterCommit,
where a null afterCommit compares as zero, keeping the commit transaction id
instrumentation. -/
def readTransactionsT {T : Type} (L : List (LogEntry T)) (afterCommit : Option Nat) :
    List (Nat × Transaction T) :=
  (replayT [] L).filter (fun p => afterCommit.getD 0 < p.2.id)

/-- The stream of reconstructed transactions a full fresh scan yields. -/
def readTransactions {T : Type} (L : List (LogEntry T)) (afterCommit : Option Nat) :
    List (Transaction T) :=
  (readTransactionsT L afterCommit).map (·.2)

/-- The blocks of the Data entries of one transaction id, in file order:
these are exactly the blocks written to that transaction, in write order. -/
def dataBlocks {T : Type} (t : Nat) (L : List (LogEntry T)) : List T :=
  L.filterMap (fun e =>
    match e with
    | .data tid v => if tid = t then some v else none
    | _ => none)

/-! ### Unfolding equations and accumulator lemmas for the replay -/

theorem tapStep_data {T : Type} (acc : List (Nat × List T)) (t : Nat) (v : T) :
    tapStep acc (.data t v) = pushBlock acc t v := rfl

theorem tapStep_abort {T : Type} (acc : List (Nat × List T)) (t : Nat) :
    tapStep acc (.abortE t) = removeTid acc t := rfl

theorem tapStep_commit {T : Type} (acc : List (Nat × List T)) (t s : Nat) :
    tapStep acc (.commitE t s) = removeTid acc t := rfl

theorem tapStep_reset {T : Type} (acc : List (Nat × List T)) :
    tapStep acc (.resetE : LogEntry T) = [] := rfl

theorem tapRun_nil {T : Type} (acc : List (Nat × List T)) : tapRun acc [] = acc := rfl

theorem tapRun_cons {T : Type} (acc : List (Nat × List T)) (e : LogEntry T)
    (L : List (LogEntry T)) : tapRun acc (e :: L) = tapRun (tapStep acc e) L := rfl

theorem tapRun_append {T : Type} (acc : List (Nat × List T)) (L1 L2 : List (LogEntry T)) :
    tapRun acc (L1 ++ L2) = tapRun (tapRun acc L1) L2 :=
  List.foldl_append ..

theorem replayT_nil {T : Type} (acc : List (Nat × List T)) :
    replayT acc ([] : List (LogEntry T)) = [] := rfl

theorem replayT_cons_data {T : Type} (acc : List (Nat × List T)) (t : Nat) (v : T)
    (L : List (LogEntry T)) :
    replayT acc (.data t v :: L) = replayT (pushBlock acc t v) L := rfl

theorem replayT_cons_abort {T : Type} (acc : List (Nat × List T)) (t : Nat)
    (L : List (LogEntry T)) :
    replayT acc (.abortE t :: L) = replayT (removeTid acc t) L := rfl

theorem replayT_cons_reset {T : Type} (acc : List (Nat × List T)) (L : List (LogEntry T)) :
    replayT acc (.resetE :: L) = replayT [] L := rfl

theorem replayT_cons_commit {T : Type} (acc : List (Nat × List T)) (t s : Nat)
    (L : List (LogEntry T)) :
    replayT acc (.commitE t s :: L) =
      (t, ⟨s, (alookup acc t).getD [], .Commited⟩) :: replayT (removeTid acc t) L := rfl

theorem replayT_append {T : Type} (L1 : List (LogEntry T)) :
    ∀ (acc : List (Nat × List T)) (L2 : List (LogEntry T)),
      replayT acc (L1 ++ L2) = replayT acc L1 ++ replayT (tapRun acc L1) L2 := by
  induction L1 with
  | nil => intro acc L2; rw [List.nil_append, replayT_nil, tapRun_nil, List.nil_append]
  | cons e rest ih =>
    intro acc L2
    cases e with
    | data t v =>
      rw [List.cons_append, replayT_cons_data, replayT_cons_data, ih, tapRun_cons]; rfl
    | abortE t =>
      rw [List.cons_append, replayT_cons_abort, replayT_cons_abort, ih, tapRun_cons]; rfl
    | resetE =>
      rw [List.cons_append, replayT_cons_reset, replayT_cons_reset, ih, tapRun_cons]; rfl
    | commitE t s =>
      rw [List.cons_append, replayT_cons_commit, replayT_cons_commit, List.cons_append, ih,
        tapRun_cons]; rfl

theorem alookup_pushBlock_self {T : Type} (m : List (Nat × List T)) (t : Nat) (v : T) :
    alookup (pushBlock m t v) t = some ((alookup m t).getD [] ++ [v]) := by
  induction m with
  | nil => simp [pushBlock, alookup]
  | cons p rest ih =>
    obtain ⟨k, bs⟩ := p
    by_cases hk : k = t
    · subst hk; simp [pushBlock, alookup]
    · simp [pushBlock, alookup, hk, ih]

theorem alookup_pushBlock_ne {T : Type} (m : List (Nat × List T)) {k t : Nat} (v : T)
    (h : k ≠ t) : alookup (pushBlock m k v) t = alookup m t := by
  induction m with
  | nil => simp [pushBlock, alookup, h]
  | cons p rest ih =>
    obtain ⟨j, bs⟩ := p
    by_cases hj : j = k
    · subst hj; simp [pushBlock, alookup, h]
    · by_cases hjt : j = t
      · subst hjt; simp [pushBlock, alookup, hj]
      · simp [pushBlock, alookup, hj, hjt, ih]

theorem alookup_removeTid_ne {T : Type} (m : List (Nat × List T)) {k t : Nat}
    (h : k ≠ t) : alookup (removeTid m k) t = alookup m t := by
  induction m with
  | nil => simp [removeTid]
  | cons p rest ih =>
    obtain ⟨j, bs⟩ := p
    by_cases hj : j = k
    · subst hj; simp [removeTid, alookup, h, Ne.symm h]
    · by_cases hjt : j = t
      · subst hjt; simp [removeTid, alookup, hj]
      · simp [removeTid, alookup, hj, hjt, ih]

theorem dataBlocks_nil {T : Type} (t : Nat) : dataBlocks t ([] : List (LogEntry T)) = [] := rfl

theorem dataBlocks_cons_data {T : Type} (t tid : Nat) (v : T) (L : List (LogEntry T)) :
    dataBlocks t (.data tid v :: L) =
      if tid = t then v :: dataBlocks t L else dataBlocks t L := by
  by_cases h : tid = t <;> simp [dataBlocks, List.filterMap_cons, h]

theorem dataBlocks_cons_commit {T : Type} (t tid s : Nat) (L : List (LogEntry T)) :
    dataBlocks t (.commitE tid s :: L) = dataBlocks t L := by
  simp [dataBlocks, List.filterMap_cons]

theorem dataBlocks_cons_abort {T : Type} (t tid : Nat) (L : List (LogEntry T)) :
    dataBlocks t (.abortE tid :: L) = dataBlocks t L := by
  simp [dataBlocks, List.filterMap_cons]

theorem dataBlocks_cons_reset {T : Type} (t : Nat) (L : List (LogEntry T)) :
    dataBlocks t (.resetE :: L) = dataBlocks t L := by
  simp [dataBlocks, List.filterMap_cons]

/-- Running the tap over a segment of the log that never commits, aborts or
resets transaction t extends the accumulator entry of t by exactly the Data
blocks of t, in order. -/
theorem getD_alookup_tapRun {T : Type} (t : Nat) (P : List (LogEntry T)) :
    ∀ acc : List (Nat × List T),
      (∀ s, LogEntry.commitE t s ∉ P) → LogEntry.abortE t ∉ P →
      (LogEntry.resetE : LogEntry T) ∉ P →
      (alookup (tapRun acc P) t).getD [] = (alookup acc t).getD [] ++ dataBlocks t P := by
  induction P with
  | nil => intro acc _ _ _; rw [tapRun_nil, dataBlocks_nil, List.append_nil]
  | cons e rest ih =>
    intro acc hc ha hr
    have hc' : ∀ s, LogEntry.commitE t s ∉ rest := fun s hs => hc s (List.mem_cons_of_mem _ hs)
    have ha' : LogEntry.abortE t ∉ rest := fun hs => ha (List.mem_cons_of_mem _ hs)
    have hr' : (LogEntry.resetE : LogEntry T) ∉ rest := fun hs => hr (List.mem_cons_of_mem _ hs)
    cases e with
    | data tid v =>
      rw [tapRun_cons, tapStep_data, dataBlocks_cons_data]
      by_cases htid : tid = t
      · subst htid
        rw [if_pos rfl, ih _ hc' ha' hr', alookup_pushBlock_self]
        simp
      · rw [if_neg htid, ih _ hc' ha' hr', alookup_pushBlock_ne _ v htid]
    | abortE tid =>
      have htid : tid ≠ t := fun h => ha (h ▸ List.mem_cons_self _ _)
      rw [tapRun_cons, tapStep_abort, dataBlocks_cons_abort, ih _ hc' ha' hr',
        alookup_removeTid_ne _ htid]
    | commitE tid s =>
      have htid : tid ≠ t := fun h => hc s (h ▸ List.mem_cons_self _ _)
      rw [tapRun_cons, tapStep_commit, dataBlocks_cons_commit, ih _ hc' ha' hr',
        alookup_removeTid_ne _ htid]
    | resetE => exact absurd (List.mem_cons_self _ _) hr

/-- Every emission of the replay pipeline originates from a Commit entry of
the log carrying the tid of the emission and, as its commit sequence, the id
of the emitted transaction. -/
theorem replayT_commit_mem {T : Type} (L : List (LogEntry T)) :
    ∀ (acc : List (Nat × List T)) (p : Nat × Transaction T), p ∈ replayT acc L →
      LogEntry.commitE p.1 p.2.id ∈ L := by
  induction L with
  | nil => intro acc p h; rw [replayT_nil] at h; exact absurd h (List.not_mem_nil p)
  | cons e rest ih =>
    intro acc p h
    cases e with
    | data t v => rw [replayT_cons_data] at h; exact List.mem_cons_of_mem _ (ih _ _ h)
    | abortE t => rw [replayT_cons_abort] at h; exact List.mem_cons_of_mem _ (ih _ _ h)
    | resetE => rw [replayT_cons_reset] at h; exact List.mem_cons_of_mem _ (ih _ _ h)
    | commitE t s =>
      rw [replayT_cons_commit] at h
      rcases List.mem_cons.mp h with h | h
      · subst h; exact List.mem_cons_self _ _
      · exact List.mem_cons_of_mem _ (ih _ _ h)

theorem replayT_dataE {T : Type} (bs : List T) :
    ∀ (acc : List (Nat × List T)) (t : Nat), replayT acc (bs.map (LogEntry.data t)) = [] := by
  induction bs with
  | nil => intro acc t; rfl
  | cons b rest ih =>
    intro acc t
    rw [List.map_cons, replayT_cons_data]
    exact ih _ _

theorem dataBlocks_dataE {T : Type} (t : Nat) (bs : List T) :
    dataBlocks t (bs.map (LogEntry.data t)) = bs := by
  induction bs with
  | nil => rfl
  | cons b rest ih => rw [List.map_cons, dataBlocks_cons_data, if_pos rfl, ih]

theorem data_map_not_commit {T : Type} (t tid s : Nat) (bs : List T) :
    LogEntry.commitE tid s ∉ bs.map (LogEntry.data t) := by
  intro hs
  rcases List.mem_map.mp hs with ⟨b, _, hb⟩
  simp at hb

theorem data_map_not_abort {T : Type} (t tid : Nat) (bs : List T) :
    LogEntry.abortE tid ∉ bs.map (LogEntry.data t) := by
  intro hs
  rcases List.mem_map.mp hs with ⟨b, _, hb⟩
  simp at hb

theorem data_map_not_reset {T : Type} (t : Nat) (bs : List T) :
    (LogEntry.resetE : LogEntry T) ∉ bs.map (LogEntry.data t) := by
  intro hs
  rcases List.mem_map.mp hs with ⟨b, _, hb⟩
  simp at hb

/-- C1: for every transaction committed through the API, so that its Data
entries precede its unique Commit entry without an intervening Abort of it,
an earlier Commit of it, or a Reset, a fresh readTransactions scan emits a
reconstructed Commited transaction for that commit whose block list is
exactly the Data blocks of the transaction in write order; and for every
transaction without a Commit entry in the log, which covers every aborted
transaction no matter how many blocks it wrote, no scan ever emits anything
for it. -/
theorem c1_commit_atomicity_abort_exclusion (T : Type) :
    (∀ (P Q : List (LogEntry T)) (t s : Nat),
       (∀ s', LogEntry.commitE t s' ∉ P) → LogEntry.abortE t ∉ P →
       (LogEntry.resetE : LogEntry T) ∉ P → 0 < s →
       (t, (⟨s, dataBlocks t P, .Commited⟩ : Transaction T)) ∈
         readTransactionsT (P ++ LogEntry.commitE t s :: Q) none) ∧
    (∀ (L : List (LogEntry T)) (t : Nat), (∀ s', LogEntry.commitE t s' ∉ L) →
       ∀ p ∈ readTransactionsT L none, p.1 ≠ t) := by
  constructor
  · intro P Q t s hc ha hr hs
    unfold readTransactionsT
    apply List.mem_filter.mpr
    refine ⟨?_, by simpa using hs⟩
    rw [replayT_append, replayT_cons_commit]
    apply List.mem_append_right
    have hblocks : (alookup (tapRun [] P) t).getD [] = dataBlocks t P := by
      rw [getD_alookup_tapRun t P [] hc ha hr]
      simp [alookup]
    rw [hblocks]
    exact List.mem_cons_self _ _
  · intro L t hc p hp hpt
    unfold readTransactionsT at hp
    have hmem := replayT_commit_mem L [] p (List.mem_filter.mp hp).1
    rw [hpt] at hmem
    exact hc _ hmem

/-- C1 witness: instantiates the atomicity theorem on the two-entry log of a
single committed transaction with one block, and on a log holding only Data
and Abort entries of transaction 1, which the scan never emits. -/
theorem c1_witness :
    ((1 : Nat), (⟨1, [10], .Commited⟩ : Transaction Nat)) ∈
      readTransactionsT [LogEntry.data 1 10, LogEntry.commitE 1 1] none ∧
    (∀ p ∈ readTransactionsT [LogEntry.data (1 : Nat) (10 : Nat), LogEntry.abortE 1] none,
      p.1 ≠ 1) := by
  constructor
  · have h := (c1_commit_atomicity_abort_exclusion Nat).1 [LogEntry.data 1 10] [] 1 1
      (fun s hs => by simp at hs) (by decide) (by decide) (by decide)
    simpa using h
  · exact (c1_commit_atomicity_abort_exclusion Nat).2 _ 1 (fun s hs => by simp at hs)

/-- C2 counterexample: transaction 1 is written and committed with commit
sequence 1, reset is called, transaction 2 is written and committed with
commit sequence 2; the fresh scan yields the pre-reset transaction followed
by transaction 2, not only transaction 2 as the claim states: the Reset
branch of the tap clears only the open-accumulator map, and the Commit entry
of transaction 1 has already produced its emission before the Reset entry is
reached. -/
theorem c2_counterexample :
    readTransactions [LogEntry.data 1 10, LogEntry.commitE 1 1, LogEntry.resetE,
        LogEntry.data 2 20, LogEntry.commitE 2 2] none =
      [⟨1, [10], .Commited⟩, ⟨2, [20], .Commited⟩] ∧
    readTransactions [LogEntry.data 1 10, LogEntry.commitE 1 1, LogEntry.resetE,
        LogEntry.data 2 20, LogEntry.commitE 2 2] none ≠
      [⟨2, [20], .Commited⟩] := by
  constructor
  · decide
  · decide

/-- C2 amended: write and commit transaction A, reset, write and commit
transaction B; a fresh scan yields A and then B. The Reset entry clears only
the accumulators of not-yet-committed transactions, so a transaction whose
Commit entry precedes the Reset marker is still surfaced by a scan passing
through the marker; only in-flight Data preceding the Reset is discarded. -/
theorem c2_amended_reset_keeps_committed (T : Type) (as bs : List T)
    (tA tB sA sB : Nat) (hA : 0 < sA) (hB : 0 < sB) :
    readTransactions (as.map (LogEntry.data tA) ++
        (LogEntry.commitE tA sA :: (LogEntry.resetE ::
          (bs.map (LogEntry.data tB) ++ [LogEntry.commitE tB sB])))) none =
      [⟨sA, as, .Commited⟩, ⟨sB, bs, .Commited⟩] := by
  have hblA : (alookup (tapRun ([] : List (Nat × List T)) (as.map (LogEntry.data tA))) tA).getD []
      = as := by
    rw [getD_alookup_tapRun tA _ [] (fun s => data_map_not_commit tA tA s as)
      (data_map_not_abort tA tA as) (data_map_not_reset tA as), dataBlocks_dataE]
    simp [alookup]
  have hblB : (alookup (tapRun ([] : List (Nat × List T)) (bs.map (LogEntry.data tB))) tB).getD []
      = bs := by
    rw [getD_alookup_tapRun tB _ [] (fun s => data_map_not_commit tB tB s bs)
      (data_map_not_abort tB tB bs) (data_map_not_reset tB bs), dataBlocks_dataE]
    simp [alookup]
  unfold readTransactions readTransactionsT
  rw [replayT_append, replayT_dataE, replayT_cons_commit, replayT_cons_reset,
    replayT_append, replayT_dataE, replayT_cons_commit, replayT_nil, hblA, hblB]
  simp [List.filter_cons, hA, hB]

/-- C2 amended witness: the amended statement evaluated on the concrete
counterexample log. -/
theorem c2_amended_witness :
    readTransactions ([10].map (LogEntry.data 1) ++
        (LogEntry.commitE 1 1 :: (LogEntry.resetE ::
          ([20].map (LogEntry.data 2) ++ [LogEntry.commitE 2 2])))) none =
      [⟨1, [10], .Commited⟩, ⟨2, [20], .Commited⟩] :=
  c2_amended_reset_keeps_committed Nat [10] [20] 1 2 1 2 (by decide) (by decide)

/-! ### The controller state and the transaction state machine -/

/-- The TransactionalLog controller fields the claims depend on, together
with the storage contents: the decoded entry list of the backing storage and
the two process-local counters. -/
structure LogCtl (T : Type) : Type where
  entries : List (LogEntry T)
  transactionCounter : Nat
  commitCounter : Nat
deriving DecidableEq, Repr

/-- The InvalidLogWrite error of TransactionalLog.ts. -/
inductive InvalidLogWrite : Type
  | invalidWrite
deriving DecidableEq, Repr

/-- Transaction.write: rejected with InvalidLogWrite before any storage
interaction unless the state is Open; otherwise appends one Data entry and
pushes the block onto the local buffer. -/
def Transaction.write {T : Type} (tr : Transaction T) (st : LogCtl T) (b : T) :
    Except InvalidLogWrite (Transaction T × LogCtl T) :=
  if tr.state ≠ .Open then .error .invalidWrite
  else .ok ({ tr with blocks := tr.blocks ++ [b] },
            { st with entries := st.entries ++ [.data tr.id b] })

/-- Transaction.writeMany: the same guard, then one Data entry per block in
order, and the blocks are pushed onto the local buffer. -/
def Transaction.writeMany {T : Type} (tr : Transaction T) (st : LogCtl T) (bs : List T) :
    Except InvalidLogWrite (Transaction T × LogCtl T) :=
  if tr.state ≠ .Open then .error .invalidWrite
  else .ok ({ tr with blocks := tr.blocks ++ bs },
            { st with entries := st.entries ++ bs.map (LogEntry.data tr.id) })

/-- Transaction.commit: the same guard, then the controller allocates the
next commit sequence number by pre-incrementing commitCounter, a Commit
entry is appended, and the state becomes Commited. -/
def Transaction.commit {T : Type} (tr : Transaction T) (st : LogCtl T) :
    Except InvalidLogWrite (Transaction T × LogCtl T) :=
  if tr.state ≠ .Open then .error .invalidWrite
  else .ok ({ tr with state := .Commited },
            { st with entries := st.entries ++ [.commitE tr.id (st.commitCounter + 1)],
                      commitCounter := st.commitCounter + 1 })

/-- Transaction.abort: the same guard, then an Abort entry is appended and
the state becomes Aborted. -/
def Transaction.abort {T : Type} (tr : Transaction T) (st : LogCtl T) :
    Except InvalidLogWrite (Transaction T × LogCtl T) :=
  if tr.state ≠ .Open then .error .invalidWrite
  else .ok ({ tr with state := .Aborted },
            { st with entries := st.entries ++ [.abortE tr.id] })

/-! ### The startup recovery scan (the initLoad pipeline of the constructor) -/

/-- The fold of the recovery scan: Data and Abort entries contribute their
transaction id to the first maximum, Commit entries contribute the
transaction id and the commit sequence, and a Reset entry is mapped to an
undefined tuple on which the combining function of the reduce crashes, so
the whole scan fails. -/
def initLoadAux {T : Type} (a : Nat × Nat) : List (LogEntry T) → Option (Nat × Nat)
  | [] => some a
  | e :: rest =>
    match e with
    | .data tid _ => initLoadAux (max a.1 tid, a.2) rest
    | .abortE tid => initLoadAux (max a.1 tid, a.2) rest
    | .commitE tid seq => initLoadAux (max a.1 tid, max a.2 seq) rest
    | .resetE => none

/-- The full recovery scan, seeded with the zero tuple of the reduce. -/
def initLoad {T : Type} (L : List (LogEntry T)) : Option (Nat × Nat) :=
  initLoadAux (0, 0) L

/-- Constructing a TransactionalLog over existing storage: the counters are
seeded from the recovery scan; the construction of the counters fails when
the scan crashes. -/
def mkTransactionalLog {T : Type} (L : List (LogEntry T)) : Option (LogCtl T) :=
  (initLoad L).map (fun p => ⟨L, p.1, p.2⟩)

/-- TransactionalLog.transaction on a recovered controller: pre-increments
transactionCounter and returns a fresh Open transaction with empty buffer. -/
def TransactionalLog.transaction {T : Type} (st : LogCtl T) : LogCtl T × Transaction T :=
  ({ st with transactionCounter := st.transactionCounter + 1 },
   ⟨st.transactionCounter + 1, [], .Open⟩)

/-- TransactionalLog.transaction gated by the awaited recovery scan: when
the scan rejected, every call rejects with that error instead of allocating
an id. -/
def transactionFromLog {T : Type} (L : List (LogEntry T)) :
    Except Unit (LogCtl T × Transaction T) :=
  match mkTransactionalLog L with
  | none => .error ()
  | some st => .ok (TransactionalLog.transaction st)

theorem initLoadAux_none_of_reset {T : Type} (L : List (LogEntry T))
    (h : (LogEntry.resetE : LogEntry T) ∈ L) :
    ∀ a : Nat × Nat, initLoadAux a L = none := by
  induction L with
  | nil => exact absurd h (List.not_mem_nil _)
  | cons e rest ih =>
    intro a
    cases e with
    | data tid v =>
      have : (LogEntry.resetE : LogEntry T) ∈ rest := by
        rcases List.mem_cons.mp h with h | h
        · exact absurd h.symm (by simp)
        · exact h
      exact ih this _
    | abortE tid =>
      have : (LogEntry.resetE : LogEntry T) ∈ rest := by
        rcases List.mem_cons.mp h with h | h
        · exact absurd h.symm (by simp)
        · exact h
      exact ih this _
    | commitE tid s =>
      have : (LogEntry.resetE : LogEntry T) ∈ rest := by
        rcases List.mem_cons.mp h with h | h
        · exact absurd h.symm (by simp)
        · exact h
      exact ih this _
    | resetE => rfl

theorem initLoadAux_some_of_no_reset {T : Type} (L : List (LogEntry T))
    (h : (LogEntry.resetE : LogEntry T) ∉ L) :
    ∀ a : Nat × Nat, ∃ r, initLoadAux a L = some r := by
  induction L with
  | nil => intro a; exact ⟨a, rfl⟩
  | cons e rest ih =>
    intro a
    have h' : (LogEntry.resetE : LogEntry T) ∉ rest := fun hm => h (List.mem_cons_of_mem _ hm)
    cases e with
    | data tid v => exact ih h' _
    | abortE tid => exact ih h' _
    | commitE tid s => exact ih h' _
    | resetE => exact absurd (List.mem_cons_self _ _) h

theorem initLoadAux_le {T : Type} (L : List (LogEntry T)) :
    ∀ (a r : Nat × Nat), initLoadAux a L = some r → a.1 ≤ r.1 ∧ a.2 ≤ r.2 := by
  induction L with
  | nil =>
    intro a r h
    rw [initLoadAux] at h
    cases h
    exact ⟨le_refl _, le_refl _⟩
  | cons e rest ih =>
    intro a r h
    cases e with
    | data tid v =>
      have := ih _ _ h
      exact ⟨le_trans (le_max_left _ _) this.1, this.2⟩
    | abortE tid =>
      have := ih _ _ h
      exact ⟨le_trans (le_max_left _ _) this.1, this.2⟩
    | commitE tid s =>
      have := ih _ _ h
      exact ⟨le_trans (le_max_left _ _) this.1, le_trans (le_max_left _ _) this.2⟩
    | resetE => exact absurd h (by rw [initLoadAux]; simp)

theorem initLoadAux_bounds {T : Type} (L : List (LogEntry T)) :
    ∀ (a r : Nat × Nat), initLoadAux a L = some r →
      (∀ t v, LogEntry.data t v ∈ L → t ≤ r.1) ∧
      (∀ t, LogEntry.abortE t ∈ L → t ≤ r.1) ∧
      (∀ t s, LogEntry.commitE t s ∈ L → t ≤ r.1 ∧ s ≤ r.2) := by
  induction L with
  | nil =>
    intro a r _
    refine ⟨?_, ?_, ?_⟩ <;> intro t
    · intro v hv; exact absurd hv (List.not_mem_nil _)
    · intro hv; exact absurd hv (List.not_mem_nil _)
    · intro s hv; exact absurd hv (List.not_mem_nil _)
  | cons e rest ih =>
    intro a r h
    cases e with
    | data tid v0 =>
      obtain ⟨ihd, iha, ihc⟩ := ih _ _ h
      have hmax := initLoadAux_le rest _ _ h
      refine ⟨?_, ?_, ?_⟩
      · intro t v hv
        rcases List.mem_cons.mp hv with hv | hv
        · cases hv; exact le_trans (le_max_right _ _) hmax.1
        · exact ihd t v hv
      · intro t hv
        rcases List.mem_cons.mp hv with hv | hv
        · exact absurd hv (by simp)
        · exact iha t hv
      · intro t s hv
        rcases List.mem_cons.mp hv with hv | hv
        · exact absurd hv (by simp)
        · exact ihc t s hv
    | abortE tid =>
      obtain ⟨ihd, iha, ihc⟩ := ih _ _ h
      have hmax := initLoadAux_le rest _ _ h
      refine ⟨?_, ?_, ?_⟩
      · intro t v hv
        rcases List.mem_cons.mp hv with hv | hv
        · exact absurd hv (by simp)
        · exact ihd t v hv
      · intro t hv
        rcases List.mem_cons.mp hv with hv | hv
        · cases hv; exact le_trans (le_max_right _ _) hmax.1
        · exact iha t hv
      · intro t s hv
        rcases List.mem_cons.mp hv with hv | hv
        · exact absurd hv (by simp)
        · exact ihc t s hv
    | commitE tid s0 =>
      obtain ⟨ihd, iha, ihc⟩ := ih _ _ h
      have hmax := initLoadAux_le rest _ _ h
      refine ⟨?_, ?_, ?_⟩
      · intro t v hv
        rcases List.mem_cons.mp hv with hv | hv
        · exact absurd hv (by simp)
        · exact ihd t v hv
      · intro t hv
        rcases List.mem_cons.mp hv with hv | hv
        · exact absurd hv (by simp)
        · exact iha t hv
      · intro t s hv
        rcases List.mem_cons.mp hv with hv | hv
        · cases hv
          exact ⟨le_trans (le_max_right _ _) hmax.1, le_trans (le_max_right _ _) hmax.2⟩
        · exact ihc t s hv
    | resetE => exact absurd h (by rw [initLoadAux]; simp)

/-- C3: over any log whose recovery scan completes, a freshly constructed
controller seeds its counters with the maxima of the scan, the first
transaction call allocates an id strictly greater than every transaction id
recorded in the log, and the first commit of that transaction allocates a
commit sequence strictly greater than every commit sequence recorded in the
log. -/
theorem c3_counters_monotonic_across_restart (T : Type) (L : List (LogEntry T))
    (h : (LogEntry.resetE : LogEntry T) ∉ L) :
    ∃ tc cc, mkTransactionalLog L = some ⟨L, tc, cc⟩ ∧
      transactionFromLog L = .ok (⟨L, tc + 1, cc⟩, ⟨tc + 1, [], .Open⟩) ∧
      (∀ t v, LogEntry.data t v ∈ L → t < tc + 1) ∧
      (∀ t, LogEntry.abortE t ∈ L → t < tc + 1) ∧
      (∀ t s, LogEntry.commitE t s ∈ L → t < tc + 1 ∧ s < cc + 1) ∧
      Transaction.commit ⟨tc + 1, [], .Open⟩ ⟨L, tc + 1, cc⟩ =
        .ok (⟨tc + 1, [], .Commited⟩,
             ⟨L ++ [LogEntry.commitE (tc + 1) (cc + 1)], tc + 1, cc + 1⟩) := by
  obtain ⟨⟨tc, cc⟩, hr⟩ := initLoadAux_some_of_no_reset L h (0, 0)
  obtain ⟨hd, ha, hc⟩ := initLoadAux_bounds L _ _ hr
  refine ⟨tc, cc, ?_, ?_, ?_, ?_, ?_, ?_⟩
  · rw [mkTransactionalLog, initLoad, hr]; rfl
  · rw [transactionFromLog, mkTransactionalLog, initLoad, hr]; rfl
  · intro t v hv; exact Nat.lt_succ_of_le (hd t v hv)
  · intro t hv; exact Nat.lt_succ_of_le (ha t hv)
  · intro t s hv
    exact ⟨Nat.lt_succ_of_le (hc t s hv).1, Nat.lt_succ_of_le (hc t s hv).2⟩
  · rfl

/-- C3 witness: a restart over the log of two committed transactions with
ids 1 and 2 and commit sequences 1 and 2 allocates transaction id 3 and
commit sequence 3. -/
theorem c3_witness :
    ∃ tc cc,
      mkTransactionalLog [LogEntry.data 1 10, LogEntry.commitE 1 1,
          LogEntry.data 2 20, LogEntry.commitE 2 2] =
        some ⟨[LogEntry.data 1 10, LogEntry.commitE 1 1,
               LogEntry.data 2 20, LogEntry.commitE 2 2], tc, cc⟩ ∧
      transactionFromLog [LogEntry.data 1 10, LogEntry.commitE 1 1,
          LogEntry.data 2 20, LogEntry.commitE 2 2] =
        .ok (⟨[LogEntry.data 1 10, LogEntry.commitE 1 1,
               LogEntry.data 2 20, LogEntry.commitE 2 2], tc + 1, cc⟩,
             ⟨tc + 1, [], .Open⟩) ∧
      (∀ t v, LogEntry.data t v ∈ [LogEntry.data 1 10, LogEntry.commitE 1 1,
          LogEntry.data 2 20, LogEntry.commitE 2 2] → t < tc + 1) ∧
      (∀ t, LogEntry.abortE t ∈ [LogEntry.data 1 10, LogEntry.commitE 1 1,
          LogEntry.data 2 20, LogEntry.commitE 2 2] → t < tc + 1) ∧
      (∀ t s, LogEntry.commitE t s ∈ [LogEntry.data 1 10, LogEntry.commitE 1 1,
          LogEntry.data 2 20, LogEntry.commitE 2 2] → t < tc + 1 ∧ s < cc + 1) ∧
      Transaction.commit ⟨tc + 1, [], .Open⟩
          ⟨[LogEntry.data 1 10, LogEntry.commitE 1 1,
            LogEntry.data 2 20, LogEntry.commitE 2 2], tc + 1, cc⟩ =
        .ok (⟨tc + 1, [], .Commited⟩,
             ⟨[LogEntry.data 1 10, LogEntry.commitE 1 1,
               LogEntry.data 2 20, LogEntry.commitE 2 2] ++
                 [LogEntry.commitE (tc + 1) (cc + 1)], tc + 1, cc + 1⟩) :=
  c3_counters_monotonic_across_restart Nat
    [LogEntry.data 1 10, LogEntry.commitE 1 1, LogEntry.data 2 20, LogEntry.commitE 2 2]
    (by decide)

/-- C10: any existing log containing a Reset entry makes the startup
recovery scan fail, because the scan maps the Reset entry to an undefined
tuple that crashes the maximum fold, and from then on every transaction call
rejects with that failure instead of allocating a transaction id. -/
theorem c10_reset_crashes_recovery (T : Type) (L : List (LogEntry T))
    (h : (LogEntry.resetE : LogEntry T) ∈ L) :
    initLoad L = none ∧ transactionFromLog L = .error () := by
  have hnone : initLoad L = none := initLoadAux_none_of_reset L h (0, 0)
  refine ⟨hnone, ?_⟩
  rw [transactionFromLog, mkTransactionalLog, hnone]
  rfl

/-- C10 witness: a log whose only entry is the Reset marker already fails
recovery, and the transaction call over it rejects. -/
theorem c10_witness :
    initLoad ([LogEntry.resetE] : List (LogEntry Nat)) = none ∧
    transactionFromLog ([LogEntry.resetE] : List (LogEntry Nat)) = .error () :=
  c10_reset_crashes_recovery Nat [LogEntry.resetE] (by decide)

/-- C7: on a transaction whose state is not Open, each of write, writeMany,
commit and abort fails with the invalid-write error; the guard runs before
any storage interaction, so the failing call appends nothing and the
transaction value is unchanged, which the error result with no state
component expresses. Conversely, while the transaction is Open none of the
four operations raises invalid-write: each returns the successor state. -/
theorem c7_invalid_write_guard (T : Type) (st : LogCtl T) (tr : Transaction T)
    (b : T) (bs : List T) :
    (tr.state ≠ .Open →
      tr.write st b = .error .invalidWrite ∧
      tr.writeMany st bs = .error .invalidWrite ∧
      tr.commit st = .error .invalidWrite ∧
      tr.abort st = .error .invalidWrite) ∧
    (tr.state = .Open →
      tr.write st b = .ok ({ tr with blocks := tr.blocks ++ [b] },
          { st with entries := st.entries ++ [.data tr.id b] }) ∧
      tr.writeMany st bs = .ok ({ tr with blocks := tr.blocks ++ bs },
          { st with entries := st.entries ++ bs.map (LogEntry.data tr.id) }) ∧
      tr.commit st = .ok ({ tr with state := .Commited },
          { st with entries := st.entries ++ [.commitE tr.id (st.commitCounter + 1)],
                    commitCounter := st.commitCounter + 1 }) ∧
      tr.abort st = .ok ({ tr with state := .Aborted },
          { st with entries := st.entries ++ [.abortE tr.id] })) := by
  constructor
  · intro h
    refine ⟨?_, ?_, ?_, ?_⟩ <;>
      simp [Transaction.write, Transaction.writeMany, Transaction.commit, Transaction.abort, h]
  · intro h
    refine ⟨?_, ?_, ?_, ?_⟩ <;>
      simp [Transaction.write, Transaction.writeMany, Transaction.commit, Transaction.abort, h]

/-- C7 witness: a Commited transaction rejects all four operations with
invalid-write, and an Open transaction accepts all four. -/
theorem c7_witness :
    ((⟨1, [5], .Commited⟩ : Transaction Nat).write ⟨[], 1, 0⟩ 7 = .error .invalidWrite ∧
     (⟨1, [5], .Commited⟩ : Transaction Nat).writeMany ⟨[], 1, 0⟩ [7] = .error .invalidWrite ∧
     (⟨1, [5], .Commited⟩ : Transaction Nat).commit ⟨[], 1, 0⟩ = .error .invalidWrite ∧
     (⟨1, [5], .Commited⟩ : Transaction Nat).abort ⟨[], 1, 0⟩ = .error .invalidWrite) ∧
    ((⟨1, [5], .Open⟩ : Transaction Nat).write ⟨[], 1, 0⟩ 7 =
        .ok (⟨1, [5, 7], .Open⟩, ⟨[LogEntry.data 1 7], 1, 0⟩) ∧
     (⟨1, [5], .Open⟩ : Transaction Nat).writeMany ⟨[], 1, 0⟩ [7] =
        .ok (⟨1, [5, 7], .Open⟩, ⟨[LogEntry.data 1 7], 1, 0⟩) ∧
     (⟨1, [5], .Open⟩ : Transaction Nat).commit ⟨[], 1, 0⟩ =
        .ok (⟨1, [5], .Commited⟩, ⟨[LogEntry.commitE 1 1], 1, 1⟩) ∧
     (⟨1, [5], .Open⟩ : Transaction Nat).abort ⟨[], 1, 0⟩ =
        .ok (⟨1, [5], .Aborted⟩, ⟨[LogEntry.abortE 1], 1, 0⟩)) := by
  constructor
  · exact (c7_invalid_write_guard Nat ⟨[], 1, 0⟩ ⟨1, [5], .Commited⟩ 7 [7]).1 (by decide)
  · have h := (c7_invalid_write_guard Nat ⟨[], 1, 0⟩ ⟨1, [5], .Open⟩ 7 [7]).2 rfl
    simpa using h

/-! ### writeTransaction under storage failures

The storage operations are asynchronous writes that may reject. The model
threads an operation counter through the controller state and consults a
failure oracle per storage write attempt: a failing attempt appends nothing
and the error propagates to the caller of the operation in progress. -/

/-- The controller state for the failure model, with the operation counter
indexing storage write attempts. -/
structure LogCtlF (T : Type) : Type where
  entries : List (LogEntry T)
  transactionCounter : Nat
  commitCounter : Nat
  opIdx : Nat
deriving DecidableEq, Repr

/-- Errors visible through writeTransaction: the invalid-write guard and a
rejected storage write identified by its attempt index. -/
inductive WTErr : Type
  | invalidWrite
  | ioFail (i : Nat)
deriving DecidableEq, Repr

/-- Transaction.write with a fallible storage attempt. -/
def writeF {T : Type} (oracle : Nat → Bool) (st : LogCtlF T) (tr : Transaction T) (b : T) :
    LogCtlF T × Transaction T × Option WTErr :=
  if tr.state ≠ .Open then (st, tr, some .invalidWrite)
  else if oracle st.opIdx then
    ({ st with opIdx := st.opIdx + 1 }, tr, some (.ioFail st.opIdx))
  else
    ({ st with entries := st.entries ++ [.data tr.id b], opIdx := st.opIdx + 1 },
     { tr with blocks := tr.blocks ++ [b] }, none)

/-- Transaction.commit with a fallible storage attempt: the controller
pre-increments commitCounter before the storage write, so the counter stays
incremented even when the write fails, and the state moves to Commited only
after the write succeeds. -/
def commitF {T : Type} (oracle : Nat → Bool) (st : LogCtlF T) (tr : Transaction T) :
    LogCtlF T × Transaction T × Option WTErr :=
  if tr.state ≠ .Open then (st, tr, some .invalidWrite)
  else if oracle st.opIdx then
    ({ st with commitCounter := st.commitCounter + 1, opIdx := st.opIdx + 1 }, tr,
     some (.ioFail st.opIdx))
  else
    ({ st with entries := st.entries ++ [.commitE tr.id (st.commitCounter + 1)],
               commitCounter := st.commitCounter + 1, opIdx := st.opIdx + 1 },
     { tr with state := .Commited }, none)

/-- Transaction.abort with a fallible storage attempt: when the Abort write
rejects, the state never moves to Aborted and stays Open. -/
def abortF {T : Type} (oracle : Nat → Bool) (st : LogCtlF T) (tr : Transaction T) :
    LogCtlF T × Transaction T × Option WTErr :=
  if tr.state ≠ .Open then (st, tr, some .invalidWrite)
  else if oracle st.opIdx then
    ({ st with opIdx := st.opIdx + 1 }, tr, some (.ioFail st.opIdx))
  else
    ({ st with entries := st.entries ++ [.abortE tr.id], opIdx := st.opIdx + 1 },
     { tr with state := .Aborted }, none)

/-- The forEach over the input blocks: sequential single-block writes that
stop at the first failure. -/
def writeBlocksF {T : Type} (oracle : Nat → Bool) :
    LogCtlF T → Transaction T → List T → LogCtlF T × Transaction T × Option WTErr
  | st, tr, [] => (st, tr, none)
  | st, tr, b :: rest =>
    match writeF oracle st tr b with
    | (st1, tr1, none) => writeBlocksF oracle st1 tr1 rest
    | (st1, tr1, some e) => (st1, tr1, some e)

/-- The catch block of writeTransaction: abort the transaction, then
re-raise the original error when the abort write succeeded; when the abort
write itself rejects, that rejection replaces the original error. -/
def abortRethrow {T : Type} (oracle : Nat → Bool) (st : LogCtlF T) (tr : Transaction T)
    (e : WTErr) : LogCtlF T × Transaction T × Option WTErr :=
  match abortF oracle st tr with
  | (st1, tr1, none) => (st1, tr1, some e)
  | (st1, tr1, some e2) => (st1, tr1, some e2)

/-- TransactionalLog.writeTransaction: open a fresh transaction, write the
blocks one at a time, commit; on any failure run the catch block. -/
def writeTransactionF {T : Type} (oracle : Nat → Bool) (st : LogCtlF T) (blocks : List T) :
    LogCtlF T × Transaction T × Option WTErr :=
  match writeBlocksF oracle { st with transactionCounter := st.transactionCounter + 1 }
      ⟨st.transactionCounter + 1, [], .Open⟩ blocks with
  | (st1, tr1, none) =>
    match commitF oracle st1 tr1 with
    | (st2, tr2, none) => (st2, tr2, none)
    | (st2, tr2, some e) => abortRethrow oracle st2 tr2 e
  | (st1, tr1, some e) => abortRethrow oracle st1 tr1 e

theorem writeF_state {T : Type} (oracle : Nat → Bool) (st : LogCtlF T)
    (tr : Transaction T) (b : T) : ((writeF oracle st tr b).2.1).state = tr.state := by
  unfold writeF
  by_cases h : tr.state = .Open
  · by_cases ho : oracle st.opIdx <;> simp [h, ho]
  · simp [h]

theorem writeBlocksF_state {T : Type} (oracle : Nat → Bool) (bs : List T) :
    ∀ (st : LogCtlF T) (tr : Transaction T),
      ((writeBlocksF oracle st tr bs).2.1).state = tr.state := by
  induction bs with
  | nil => intro st tr; rfl
  | cons b rest ih =>
    intro st tr
    rw [writeBlocksF]
    have hw := writeF_state oracle st tr b
    rcases hwf : writeF oracle st tr b with ⟨st1, tr1, err⟩
    rw [hwf] at hw
    cases err with
    | none => rw [ih st1 tr1]; exact hw
    | some e => exact hw

theorem writeF_id {T : Type} (oracle : Nat → Bool) (st : LogCtlF T)
    (tr : Transaction T) (b : T) : ((writeF oracle st tr b).2.1).id = tr.id := by
  unfold writeF
  by_cases h : tr.state = .Open
  · by_cases ho : oracle st.opIdx <;> simp [h, ho]
  · simp [h]

theorem writeBlocksF_id {T : Type} (oracle : Nat → Bool) (bs : List T) :
    ∀ (st : LogCtlF T) (tr : Transaction T),
      ((writeBlocksF oracle st tr bs).2.1).id = tr.id := by
  induction bs with
  | nil => intro st tr; rfl
  | cons b rest ih =>
    intro st tr
    rw [writeBlocksF]
    have hw := writeF_id oracle st tr b
    rcases hwf : writeF oracle st tr b with ⟨st1, tr1, err⟩
    rw [hwf] at hw
    cases err with
    | none => rw [ih st1 tr1]; exact hw
    | some e => exact hw

/-- The catch block outcome, correlated with the fate of the Abort write:
when the Abort write succeeds the transaction ends Aborted and the original
error is re-raised; when the Abort write itself rejects the transaction
stays Open and the abort failure is raised instead. -/
theorem abortRethrow_spec {T : Type} (oracle : Nat → Bool) (st : LogCtlF T)
    (tr : Transaction T) (e : WTErr) (h : tr.state = .Open) :
    ((abortF oracle st tr).2.2 = none →
      ((abortRethrow oracle st tr e).2.1).state = .Aborted ∧
      (abortRethrow oracle st tr e).2.2 = some e) ∧
    (∀ e2, (abortF oracle st tr).2.2 = some e2 →
      ((abortRethrow oracle st tr e).2.1).state = .Open ∧
      (abortRethrow oracle st tr e).2.2 = some e2) := by
  unfold abortRethrow abortF
  by_cases ho : oracle st.opIdx <;> simp [h, ho]

/-- C8 counterexample: with a storage that rejects the first two write
attempts, writeTransaction of a single block fails the Data write, then the
abort write inside the catch block also fails, so the opened transaction is
left in the Open state and the abort failure, not the original error of
attempt 0, is raised to the caller; this falsifies the claim that no
transaction opened through writeTransaction is left Open after a
caller-visible failure and that the original error is re-raised. -/
theorem c8_counterexample :
    ((writeTransactionF (fun i => decide (i < 2)) ⟨[], 0, 0, 0⟩ [42]).2.1).state =
        .Open ∧
    (writeTransactionF (fun i => decide (i < 2)) ⟨[], 0, 0, 0⟩ [42]).2.2 =
        some (.ioFail 1) ∧
    (writeTransactionF (fun i => decide (i < 2)) ⟨[], 0, 0, 0⟩ [42]).2.2 ≠
        some (.ioFail 0) := by
  refine ⟨?_, ?_, ?_⟩ <;> decide

/-- C8 amended: when every step of writeTransaction succeeds the opened
transaction ends Commited with no error; when any step fails, the failing
step is either one of the sequential block writes or the commit, producing
an original error, and the catch block attempts an abort of exactly the
opened transaction (still Open, with the freshly allocated id): if the
Abort write succeeds the transaction ends Aborted and the original error is
re-raised to the caller, but if the Abort write itself fails the
transaction remains Open and the abort failure is raised in place of the
original error. -/
theorem c8_amended_abort_on_failure (T : Type) (oracle : Nat → Bool) (st : LogCtlF T)
    (blocks : List T) :
    ((writeTransactionF oracle st blocks).2.2 = none →
      ((writeTransactionF oracle st blocks).2.1).state = .Commited) ∧
    (∀ e, (writeTransactionF oracle st blocks).2.2 = some e →
      ∃ (st1 : LogCtlF T) (tr1 : Transaction T) (e0 : WTErr),
        tr1.id = st.transactionCounter + 1 ∧
        tr1.state = .Open ∧
        (writeBlocksF oracle { st with transactionCounter := st.transactionCounter + 1 }
            ⟨st.transactionCounter + 1, [], .Open⟩ blocks = (st1, tr1, some e0) ∨
          ∃ stw trw,
            writeBlocksF oracle { st with transactionCounter := st.transactionCounter + 1 }
              ⟨st.transactionCounter + 1, [], .Open⟩ blocks = (stw, trw, none) ∧
            commitF oracle stw trw = (st1, tr1, some e0)) ∧
        writeTransactionF oracle st blocks = abortRethrow oracle st1 tr1 e0 ∧
        ((abortF oracle st1 tr1).2.2 = none →
          ((writeTransactionF oracle st blocks).2.1).state = .Aborted ∧ e = e0) ∧
        ((abortF oracle st1 tr1).2.2 ≠ none →
          ((writeTransactionF oracle st blocks).2.1).state = .Open ∧
          (abortF oracle st1 tr1).2.2 = some e)) := by
  have hstate : ((writeBlocksF oracle { st with transactionCounter := st.transactionCounter + 1 }
      ⟨st.transactionCounter + 1, [], .Open⟩ blocks).2.1).state = .Open :=
    writeBlocksF_state oracle blocks _ _
  have hid : ((writeBlocksF oracle { st with transactionCounter := st.transactionCounter + 1 }
      ⟨st.transactionCounter + 1, [], .Open⟩ blocks).2.1).id = st.transactionCounter + 1 :=
    writeBlocksF_id oracle blocks _ _
  rcases hwb : writeBlocksF oracle { st with transactionCounter := st.transactionCounter + 1 }
      ⟨st.transactionCounter + 1, [], .Open⟩ blocks with ⟨stw, trw, errw⟩
  rw [hwb] at hstate hid
  simp only at hstate hid
  have hwt : writeTransactionF oracle st blocks =
      (match (stw, trw, errw) with
       | (st1, tr1, none) =>
         match commitF oracle st1 tr1 with
         | (st2, tr2, none) => (st2, tr2, none)
         | (st2, tr2, some e) => abortRethrow oracle st2 tr2 e
       | (st1, tr1, some e) => abortRethrow oracle st1 tr1 e) := by
    unfold writeTransactionF
    rw [hwb]
  cases errw with
  | some e0 =>
    have hwt1 : writeTransactionF oracle st blocks = abortRethrow oracle stw trw e0 := hwt
    have hspec := abortRethrow_spec oracle stw trw e0 hstate
    constructor
    · intro hnone
      rw [hwt1] at hnone
      rcases habt : (abortF oracle stw trw).2.2 with - | e2
      · rcases hspec.1 habt with ⟨-, h22⟩
        rw [h22] at hnone
        cases hnone
      · rcases hspec.2 e2 habt with ⟨-, h22⟩
        rw [h22] at hnone
        cases hnone
    · intro e he
      refine ⟨stw, trw, e0, hid, hstate, Or.inl rfl, hwt1, ?_, ?_⟩
      · intro habt
        rcases hspec.1 habt with ⟨hA, h22⟩
        have he0 : e = e0 := by
          rw [hwt1, h22] at he
          exact (Option.some.inj he).symm
        exact ⟨by rw [hwt1]; exact hA, he0⟩
      · intro habf
        rcases Option.ne_none_iff_exists'.mp habf with ⟨e2, he2⟩
        rcases hspec.2 e2 he2 with ⟨hO, h22⟩
        have he2e : e = e2 := by
          rw [hwt1, h22] at he
          exact (Option.some.inj he).symm
        refine ⟨by rw [hwt1]; exact hO, ?_⟩
        rw [he2, he2e]
  | none =>
    have hwt1 : writeTransactionF oracle st blocks =
        (match commitF oracle stw trw with
         | (st2, tr2, none) => (st2, tr2, none)
         | (st2, tr2, some e) => abortRethrow oracle st2 tr2 e) := hwt
    rcases hcm : commitF oracle stw trw with ⟨st2, tr2, err2⟩
    rw [hcm] at hwt1
    have hcm' := hcm
    unfold commitF at hcm'
    rw [if_neg (by simp [hstate])] at hcm'
    cases err2 with
    | none =>
      have hwt2 : writeTransactionF oracle st blocks = (st2, tr2, none) := hwt1
      constructor
      · intro _
        by_cases ho : oracle stw.opIdx
        · rw [if_pos ho] at hcm'
          simp only [Prod.mk.injEq] at hcm'
          exact absurd hcm'.2.2 (by simp)
        · rw [if_neg ho] at hcm'
          simp only [Prod.mk.injEq] at hcm'
          obtain ⟨-, htr2, -⟩ := hcm'
          rw [hwt2]
          show tr2.state = .Commited
          rw [← htr2]
      · intro e he
        rw [hwt2] at he
        simp at he
    | some e0 =>
      have hwt2 : writeTransactionF oracle st blocks = abortRethrow oracle st2 tr2 e0 := hwt1
      have htr2 : tr2 = trw := by
        by_cases ho : oracle stw.opIdx
        · rw [if_pos ho] at hcm'
          simp only [Prod.mk.injEq] at hcm'
          exact hcm'.2.1.symm
        · rw [if_neg ho] at hcm'
          simp only [Prod.mk.injEq] at hcm'
          exact absurd hcm'.2.2 (by simp)
      have hOpen2 : tr2.state = .Open := by rw [htr2]; exact hstate
      have hid2 : tr2.id = st.transactionCounter + 1 := by rw [htr2]; exact hid
      have hspec := abortRethrow_spec oracle st2 tr2 e0 hOpen2
      constructor
      · intro hnone
        rw [hwt2] at hnone
        rcases habt : (abortF oracle st2 tr2).2.2 with - | e2
        · rcases hspec.1 habt with ⟨-, h22⟩
          rw [h22] at hnone
          cases hnone
        · rcases hspec.2 e2 habt with ⟨-, h22⟩
          rw [h22] at hnone
          cases hnone
      · intro e he
        refine ⟨st2, tr2, e0, hid2, hOpen2, Or.inr ⟨stw, trw, rfl, hcm⟩, hwt2, ?_, ?_⟩
        · intro habt
          rcases hspec.1 habt with ⟨hA, h22⟩
          have he0 : e = e0 := by
            rw [hwt2, h22] at he
            exact (Option.some.inj he).symm
          exact ⟨by rw [hwt2]; exact hA, he0⟩
        · intro habf
          rcases Option.ne_none_iff_exists'.mp habf with ⟨e2, he2⟩
          rcases hspec.2 e2 he2 with ⟨hO, h22⟩
          have he2e : e = e2 := by
            rw [hwt2, h22] at he
            exact (Option.some.inj he).symm
          refine ⟨by rw [hwt2]; exact hO, ?_⟩
          rw [he2, he2e]

/-- C8 amended witness: with storage that never fails, writeTransaction of
one block ends Commited; with storage rejecting only the first attempt, the
block write fails, the abort write of the catch block succeeds, and the
failure part of the amended theorem yields the Aborted final state with the
original error of attempt zero re-raised to the caller. -/
theorem c8_amended_witness :
    ((writeTransactionF (fun _ => false) ⟨[], 0, 0, 0⟩ [(42 : Nat)]).2.1).state =
      .Commited ∧
    ((writeTransactionF (fun i => decide (i = 0)) ⟨[], 0, 0, 0⟩ [(42 : Nat)]).2.1).state =
      .Aborted ∧
    (writeTransactionF (fun i => decide (i = 0)) ⟨[], 0, 0, 0⟩ [(42 : Nat)]).2.2 =
      some (.ioFail 0) := by
  refine ⟨?_, ?_, ?_⟩
  · exact (c8_amended_abort_on_failure Nat (fun _ => false) ⟨[], 0, 0, 0⟩ [42]).1 (by decide)
  · obtain ⟨st1, tr1, e0, -, -, horig, -, habtS, -⟩ :=
      (c8_amended_abort_on_failure Nat (fun i => decide (i = 0)) ⟨[], 0, 0, 0⟩ [42]).2
        (.ioFail 0) (by decide)
    rcases horig with heq | ⟨stw, trw, hn, -⟩
    · have heq' : ((⟨[], 1, 0, 1⟩ : LogCtlF Nat), (⟨1, [], .Open⟩ : Transaction Nat),
          some (WTErr.ioFail 0)) = (st1, tr1, some e0) := by
        rw [← heq]
        rfl
      simp only [Prod.mk.injEq] at heq'
      obtain ⟨hst1, htr1, -⟩ := heq'
      exact (habtS (by rw [← hst1, ← htr1]; rfl)).1
    · have hval : (stw, trw, (none : Option WTErr)) =
          ((⟨[], 1, 0, 1⟩ : LogCtlF Nat), (⟨1, [], TransactionState.Open⟩ : Transaction Nat),
            some (WTErr.ioFail 0)) := by
        rw [← hn]
        rfl
      simp at hval
  · decide

/-! ### FileStorage read caching and close (single-segment engine) -/

/-- How one FileStorage.read call is served: by a fresh physical scan of the
backing file, or by the in-memory replay buffer installed earlier. -/
inductive ReadSource : Type
  | physicalScan
  | cachedBuffer
deriving DecidableEq, Repr

/-- The FileStorage fields the caching claims depend on: the decoded file
contents, the keepInMemory flag, whether the lazily opened writer handle is
open, and whether the replay buffer has been installed. -/
structure FileStorage (T : Type) : Type where
  contents : List (LogEntry T)
  keepInMemory : Bool
  writer : Bool
  readerBuffer : Bool
deriving DecidableEq, Repr

/-- FileStorage.read: when the replay buffer exists it is returned, serving
the cached scan; otherwise a fresh physical scan of the file is produced
and, when keepInMemory is set, the replay buffer over it is installed. -/
def FileStorage.read {T : Type} (st : FileStorage T) : FileStorage T × ReadSource :=
  if st.readerBuffer then (st, .cachedBuffer)
  else if st.keepInMemory then ({ st with readerBuffer := true }, .physicalScan)
  else (st, .physicalScan)

/-- FileStorage.close: releases the writer handle when open. The reader
buffer field is not touched by close. -/
def FileStorage.close {T : Type} (st : FileStorage T) : FileStorage T :=
  if st.writer then { st with writer := false } else st

/-- C6 counterexample: on an in-memory engine, after the first read installs
the cache, a close followed by a read is still served from the cached
buffer, not by a fresh physical scan: close releases only the writer handle
and never invalidates the read cache, falsifying the part of the claim that
says the next read after close performs a fresh physical scan. -/
theorem c6_counterexample :
    (FileStorage.read (FileStorage.close
        (FileStorage.read (⟨[], true, true, false⟩ : FileStorage Nat)).1)).2 =
      ReadSource.cachedBuffer ∧
    ReadSource.cachedBuffer ≠ ReadSource.physicalScan := by
  constructor <;> decide

/-- C6 amended: on an engine configured to keep reads in memory, the first
read performs the one physical scan and installs the replay buffer; every
later read is served from that buffer without re-touching disk, and this
remains true after close, because close releases only the writer handle and
does not invalidate the cache. -/
theorem c6_amended_cache_survives_close (T : Type) (st : FileStorage T)
    (hk : st.keepInMemory = true) (hb : st.readerBuffer = false) :
    (st.read.2 = .physicalScan ∧ st.read.1.readerBuffer = true) ∧
    (∀ st2 : FileStorage T, st2.readerBuffer = true →
      st2.read.2 = .cachedBuffer ∧ st2.read.1 = st2 ∧ st2.close.readerBuffer = true) := by
  constructor
  · simp [FileStorage.read, hb, hk]
  · intro st2 h2
    unfold FileStorage.read FileStorage.close
    by_cases hw : st2.writer <;> simp [h2, hw]

/-- C6 amended witness: the amended statement evaluated on an empty
in-memory engine and on the state right after its first read. -/
theorem c6_amended_witness :
    ((⟨[], true, true, false⟩ : FileStorage Nat).read.2 = .physicalScan ∧
      (⟨[], true, true, false⟩ : FileStorage Nat).read.1.readerBuffer = true) ∧
    (∀ st2 : FileStorage Nat, st2.readerBuffer = true →
      st2.read.2 = .cachedBuffer ∧ st2.read.1 = st2 ∧ st2.close.readerBuffer = true) :=
  c6_amended_cache_survives_close Nat ⟨[], true, true, false⟩ rfl rfl

/-! ### The segmented storage engine

The backing directory is an association list from segment index to the
decoded entries of that segment file; a pair is present exactly when the
segment file exists on disk. The remaining fields mirror the class fields
file (the index of the open active segment), fileIndex, fileEntries and
entriesPerFile. -/

structure SegmentedFileStorage (T : Type) : Type where
  segments : List (Nat × List (LogEntry T))
  file : Option Nat
  fileIndex : Nat
  fileEntries : Nat
  entriesPerFile : Nat
deriving DecidableEq, Repr

/-- The maximum existing segment index, the reduce over getSegments with
seed zero. -/
def maxSegment {T : Type} (st : SegmentedFileStorage T) : Nat :=
  (st.segments.map (·.1)).foldl max 0

/-- Whether the segment file of one index exists on disk. -/
def segExists {T : Type} (st : SegmentedFileStorage T) (i : Nat) : Bool :=
  (alookup st.segments i).isSome

/-- The number of decoded entries of one segment file. -/
def segCount {T : Type} (st : SegmentedFileStorage T) (i : Nat) : Nat :=
  ((alookup st.segments i).getD []).length

/-- getNextSegment: the maximum existing index, bumped by one when that
segment exists and is already at or above the threshold. -/
def getNextSegment {T : Type} (st : SegmentedFileStorage T) : Nat :=
  if segExists st (maxSegment st) = true ∧
      st.entriesPerFile ≤ segCount st (maxSegment st) then
    maxSegment st + 1
  else maxSegment st

/-- openWriter: when no active segment is open, open the one getNextSegment
selects and, when its file exists, load its entry count into fileEntries.
The fileIndex field is not updated here, exactly as in the source. -/
def openWriter {T : Type} (st : SegmentedFileStorage T) : SegmentedFileStorage T :=
  match st.file with
  | some _ => st
  | none =>
    if segExists st (getNextSegment st) = true then
      { st with file := some (getNextSegment st),
                fileEntries := segCount st (getNextSegment st) }
    else
      { st with file := some (getNextSegment st) }

/-- flipWriter: close the active segment and open the segment at the
pre-incremented fileIndex, resetting the entry counter. -/
def flipWriter {T : Type} (st : SegmentedFileStorage T) : SegmentedFileStorage T :=
  { st with file := some (st.fileIndex + 1), fileIndex := st.fileIndex + 1,
            fileEntries := 0 }

/-- Append entries to the file of one segment index, creating the file when
absent. -/
def appendSeg {T : Type} :
    List (Nat × List (LogEntry T)) → Nat → List (LogEntry T) →
      List (Nat × List (LogEntry T))
  | [], i, es => [(i, es)]
  | (k, cur) :: rest, i, es =>
    if k = i then (k, cur ++ es) :: rest else (k, cur) :: appendSeg rest i es

/-- Append entries to the active segment; writing an empty batch touches no
file, and a first write creates the file. -/
def writeActive {T : Type} (st : SegmentedFileStorage T) (es : List (LogEntry T)) :
    SegmentedFileStorage T :=
  if es.isEmpty then st
  else { st with segments := appendSeg st.segments (st.file.getD 0) es }

/-- The rotation check shared by every mutating operation: flip when the
entry counter reached the threshold. -/
def postCheck {T : Type} (st : SegmentedFileStorage T) : SegmentedFileStorage T :=
  if st.entriesPerFile ≤ st.fileEntries then flipWriter st else st

/-- One lap of the split-write loop: take as many blocks as the remaining
capacity of the active segment allows, append them there, add the literal
number of written blocks to the entry counter, and report the lap event
(segment index, counter increment, entries appended) plus the leftover
blocks. -/
def writeLap {T : Type} (t : Nat) (st : SegmentedFileStorage T) (blocks : List T) :
    SegmentedFileStorage T × List T × (Nat × Nat × Nat) :=
  ( { writeActive st ((blocks.take (st.entriesPerFile - st.fileEntries)).map
        (LogEntry.data t)) with
      fileEntries := st.fileEntries +
        (blocks.take (st.entriesPerFile - st.fileEntries)).length },
    blocks.drop (st.entriesPerFile - st.fileEntries),
    (st.file.getD 0, (blocks.take (st.entriesPerFile - st.fileEntries)).length,
     (blocks.take (st.entriesPerFile - st.fileEntries)).length) )

/-- The split-write loop: repeat laps, flipping between laps while blocks
remain. The fuel bounds the laps; the loop of the source diverges when
entriesPerFile is zero, which the exhausted-fuel none models, and writeMany
supplies enough fuel for every terminating run. -/
def writeLoop {T : Type} (t : Nat) :
    Nat → SegmentedFileStorage T → List T →
      Option (SegmentedFileStorage T × List (Nat × Nat × Nat))
  | 0, _, _ => none
  | _ + 1, st, [] => some (st, [])
  | fuel + 1, st, b :: bs =>
    if ((writeLap t st (b :: bs)).2.1).isEmpty then
      some ((writeLap t st (b :: bs)).1, [(writeLap t st (b :: bs)).2.2])
    else
      match writeLoop t fuel (flipWriter (writeLap t st (b :: bs)).1)
          (writeLap t st (b :: bs)).2.1 with
      | none => none
      | some (st2, evs) => some (st2, (writeLap t st (b :: bs)).2.2 :: evs)

/-- SegmentedFileStorage.writeMany instrumented with the lap events: when
the whole batch fits in the active segment, one Data entry per block is
appended there but the entry counter is incremented by exactly one;
otherwise the split loop distributes the batch. Both paths end with the
rotation check. -/
def writeManyI {T : Type} (st0 : SegmentedFileStorage T) (t : Nat) (blocks : List T) :
    Option (SegmentedFileStorage T × List (Nat × Nat × Nat)) :=
  if (openWriter st0).fileEntries + blocks.length ≤ (openWriter st0).entriesPerFile then
    some (postCheck { writeActive (openWriter st0) (blocks.map (LogEntry.data t)) with
                      fileEntries := (openWriter st0).fileEntries + 1 },
          [((openWriter st0).file.getD 0, 1, blocks.length)])
  else
    match writeLoop t (blocks.length + 2) (openWriter st0) blocks with
    | none => none
    | some (st1, evs) => some (postCheck st1, evs)

/-- SegmentedFileStorage.writeMany, the state part of the instrumented
version. -/
def SegmentedFileStorage.writeMany {T : Type} (st : SegmentedFileStorage T) (t : Nat)
    (blocks : List T) : Option (SegmentedFileStorage T) :=
  (writeManyI st t blocks).map (·.1)

/-- SegmentedFileStorage.commit: append one Commit entry to the active
segment. The entry counter is not incremented, only the rotation check
runs. -/
def SegmentedFileStorage.commit {T : Type} (st0 : SegmentedFileStorage T) (t s : Nat) :
    SegmentedFileStorage T :=
  postCheck (writeActive (openWriter st0) [LogEntry.commitE t s])

/-- Ascending insertion sort of segment indices, the sort of the read
composition. -/
def insertSorted (i : Nat) : List Nat → List Nat
  | [] => [i]
  | j :: rest => if i ≤ j then i :: j :: rest else j :: insertSorted i rest

def sortNats : List Nat → List Nat
  | [] => []
  | i :: rest => insertSorted i (sortNats rest)

/-- SegmentedFileStorage.read: concatenate the entries of the existing
segments in ascending index order. -/
def SegmentedFileStorage.read {T : Type} (st : SegmentedFileStorage T) :
    List (LogEntry T) :=
  ((sortNats (st.segments.map (·.1))).map
    (fun i => (alookup st.segments i).getD [])).flatten

/-- A fresh segmented engine over an empty directory. -/
def initSeg (T : Type) (epf : Nat) : SegmentedFileStorage T :=
  ⟨[], none, 0, 0, epf⟩

/-- The C4 scenario: entriesPerFile two, three single-block transactions
written and committed through the segmented engine, with the transaction
ids and commit sequences a fresh controller allocates. -/
def c4run {T : Type} (b1 b2 b3 : T) : Option (SegmentedFileStorage T) :=
  match SegmentedFileStorage.writeMany (initSeg T 2) 1 [b1] with
  | none => none
  | some s1 =>
    match SegmentedFileStorage.writeMany (SegmentedFileStorage.commit s1 1 1) 2 [b2] with
    | none => none
    | some s3 =>
      match SegmentedFileStorage.writeMany (SegmentedFileStorage.commit s3 2 2) 3 [b3] with
      | none => none
      | some s5 => some (SegmentedFileStorage.commit s5 3 3)

/-- C4 counterexample: on the three-transaction scenario with entriesPerFile
two, segment zero receives three entries, because commit runs only the
rotation check without incrementing the entry counter; the claim that no
segment holds more than two entries is false at this input. Six entries in
exactly two segments could not respect the threshold anyway. -/
theorem c4_counterexample :
    ¬ (∀ st : SegmentedFileStorage Nat, c4run 10 20 30 = some st →
        ∀ p ∈ st.segments, p.2.length ≤ 2) := by
  intro h
  have h3 := h ⟨[(0, [.data 1 10, .commitE 1 1, .data 2 20]),
                 (1, [.commitE 2 2, .data 3 30, .commitE 3 3])], some 1, 1, 1, 2⟩
      (by decide)
      (0, [.data 1 10, .commitE 1 1, .data 2 20]) (by decide)
  exact absurd h3 (by decide)

/-- C4 amended: with entriesPerFile two, writing and committing three
single-block transactions places the six entries across exactly two
segments with three entries in each, since commit entries do not advance
the per-segment entry counter, and reading segments in ascending index
order reproduces all three transactions in commit order. -/
theorem c4_amended_two_segments (T : Type) (b1 b2 b3 : T) :
    (c4run b1 b2 b3).map (fun st => st.segments.map (fun p => (p.1, p.2.length))) =
      some [(0, 3), (1, 3)] ∧
    (c4run b1 b2 b3).map (fun st => readTransactions st.read none) =
      some [⟨1, [b1], .Commited⟩, ⟨2, [b2], .Commited⟩, ⟨3, [b3], .Commited⟩] := by
  have h1 : SegmentedFileStorage.writeMany (initSeg T 2) 1 [b1] =
      some ⟨[(0, [.data 1 b1])], some 0, 0, 1, 2⟩ := rfl
  have h2 : SegmentedFileStorage.commit
      (⟨[(0, [.data 1 b1])], some 0, 0, 1, 2⟩ : SegmentedFileStorage T) 1 1 =
      ⟨[(0, [.data 1 b1, .commitE 1 1])], some 0, 0, 1, 2⟩ := rfl
  have h3 : SegmentedFileStorage.writeMany
      (⟨[(0, [.data 1 b1, .commitE 1 1])], some 0, 0, 1, 2⟩ : SegmentedFileStorage T)
      2 [b2] =
      some ⟨[(0, [.data 1 b1, .commitE 1 1, .data 2 b2])], some 1, 1, 0, 2⟩ := rfl
  have h4 : SegmentedFileStorage.commit
      (⟨[(0, [.data 1 b1, .commitE 1 1, .data 2 b2])], some 1, 1, 0, 2⟩ :
        SegmentedFileStorage T) 2 2 =
      ⟨[(0, [.data 1 b1, .commitE 1 1, .data 2 b2]), (1, [.commitE 2 2])],
       some 1, 1, 0, 2⟩ := rfl
  have h5 : SegmentedFileStorage.writeMany
      (⟨[(0, [.data 1 b1, .commitE 1 1, .data 2 b2]), (1, [.commitE 2 2])],
        some 1, 1, 0, 2⟩ : SegmentedFileStorage T) 3 [b3] =
      some ⟨[(0, [.data 1 b1, .commitE 1 1, .data 2 b2]),
             (1, [.commitE 2 2, .data 3 b3])], some 1, 1, 1, 2⟩ := rfl
  have h6 : SegmentedFileStorage.commit
      (⟨[(0, [.data 1 b1, .commitE 1 1, .data 2 b2]),
         (1, [.commitE 2 2, .data 3 b3])], some 1, 1, 1, 2⟩ :
        SegmentedFileStorage T) 3 3 =
      ⟨[(0, [.data 1 b1, .commitE 1 1, .data 2 b2]),
        (1, [.commitE 2 2, .data 3 b3, .commitE 3 3])], some 1, 1, 1, 2⟩ := rfl
  have hrun : c4run b1 b2 b3 =
      some ⟨[(0, [.data 1 b1, .commitE 1 1, .data 2 b2]),
             (1, [.commitE 2 2, .data 3 b3, .commitE 3 3])], some 1, 1, 1, 2⟩ := by
    unfold c4run
    simp only [h1, h2, h3, h4, h5, h6]
  rw [hrun]
  exact ⟨rfl, rfl⟩

/-- C5: over a directory holding full segments zero and one with
entriesPerFile two, startup selects segment two as the active segment, yet
the first rotation afterwards opens segment one, which is at or below the
existing maximum index one: openWriter never copies the selected index into
fileIndex, so flipWriter pre-increments the stale zero. -/
theorem c5_startup_rotation_reuses_low_segment :
    (openWriter (⟨[(0, [LogEntry.commitE 1 1, LogEntry.commitE 2 2]),
                   (1, [LogEntry.commitE 3 3, LogEntry.commitE 4 4])],
                  none, 0, 0, 2⟩ : SegmentedFileStorage Nat)).file = some 2 ∧
    (flipWriter (openWriter (⟨[(0, [LogEntry.commitE 1 1, LogEntry.commitE 2 2]),
                   (1, [LogEntry.commitE 3 3, LogEntry.commitE 4 4])],
                  none, 0, 0, 2⟩ : SegmentedFileStorage Nat))).file = some 1 ∧
    maxSegment (⟨[(0, [LogEntry.commitE 1 1, LogEntry.commitE 2 2]),
                   (1, [LogEntry.commitE 3 3, LogEntry.commitE 4 4])],
                  none, 0, 0, 2⟩ : SegmentedFileStorage Nat) = 1 := by
  refine ⟨?_, ?_, ?_⟩ <;> decide

theorem openWriter_some {T : Type} (st : SegmentedFileStorage T) (i : Nat)
    (h : st.file = some i) : openWriter st = st := by
  unfold openWriter
  rw [h]

theorem writeActive_entriesPerFile {T : Type} (st : SegmentedFileStorage T)
    (es : List (LogEntry T)) : (writeActive st es).entriesPerFile = st.entriesPerFile := by
  unfold writeActive
  split <;> rfl

theorem postCheck_no_flip {T : Type} (st : SegmentedFileStorage T)
    (h : ¬ st.entriesPerFile ≤ st.fileEntries) : postCheck st = st := by
  unfold postCheck
  rw [if_neg h]

theorem writeLoop_events {T : Type} (t : Nat) :
    ∀ (fuel : Nat) (st : SegmentedFileStorage T) (blocks : List T)
      (st1 : SegmentedFileStorage T) (evs : List (Nat × Nat × Nat)),
      writeLoop t fuel st blocks = some (st1, evs) →
      (∀ ev ∈ evs, ev.2.1 = ev.2.2) ∧
      (evs.map (fun ev => ev.2.2)).sum = blocks.length := by
  intro fuel
  induction fuel with
  | zero =>
    intro st blocks st1 evs h
    simp [writeLoop] at h
  | succ n ih =>
    intro st blocks st1 evs h
    cases blocks with
    | nil =>
      simp only [writeLoop, Option.some.injEq, Prod.mk.injEq] at h
      obtain ⟨-, h2⟩ := h
      subst h2
      exact ⟨by intro ev hev; simp at hev, rfl⟩
    | cons b bs =>
      rw [writeLoop] at h
      by_cases hrest : ((writeLap t st (b :: bs)).2.1).isEmpty
      · rw [if_pos hrest] at h
        simp only [Option.some.injEq, Prod.mk.injEq] at h
        obtain ⟨-, h2⟩ := h
        subst h2
        have hlen : (b :: bs).length ≤ st.entriesPerFile - st.fileEntries := by
          have hnil : (b :: bs).drop (st.entriesPerFile - st.fileEntries) = [] :=
            List.isEmpty_iff.mp hrest
          have := congrArg List.length hnil
          rw [List.length_drop, List.length_nil] at this
          omega
        constructor
        · intro ev hev
          rcases List.mem_singleton.mp hev with rfl
          rfl
        · show ((b :: bs).take (st.entriesPerFile - st.fileEntries)).length + 0 =
            (b :: bs).length
          rw [List.length_take, Nat.add_zero, Nat.min_eq_right hlen]
      · rw [if_neg hrest] at h
        rcases hrec : writeLoop t n (flipWriter (writeLap t st (b :: bs)).1)
            ((writeLap t st (b :: bs)).2.1) with - | ⟨st2, evs2⟩
        · rw [hrec] at h
          cases h
        · rw [hrec] at h
          simp only [Option.some.injEq, Prod.mk.injEq] at h
          obtain ⟨-, h2⟩ := h
          subst h2
          obtain ⟨hall, hsum⟩ := ih _ _ _ _ hrec
          constructor
          · intro ev hev
            rcases List.mem_cons.mp hev with rfl | hev
            · rfl
            · exact hall ev hev
          · have hTD := congrArg List.length
              (List.take_append_drop (st.entriesPerFile - st.fileEntries) (b :: bs))
            rw [List.length_append] at hTD
            show ((b :: bs).take (st.entriesPerFile - st.fileEntries)).length +
              (evs2.map (fun ev => ev.2.2)).sum = (b :: bs).length
            rw [hsum]
            show ((b :: bs).take (st.entriesPerFile - st.fileEntries)).length +
              ((b :: bs).drop (st.entriesPerFile - st.fileEntries)).length =
              (b :: bs).length
            exact hTD

/-- C9: with an open active segment, a writeMany batch that fits entirely in
the remaining file increments the per-segment entry counter by exactly one
no matter how many blocks the batch holds, while appending one Data entry
per block; in the split path every lap adds to the counter the literal
number of blocks appended to that segment, and across the laps all blocks
of the batch are placed. -/
theorem c9_batch_counter_semantics (T : Type) (st : SegmentedFileStorage T)
    (t : Nat) (blocks : List T) (i : Nat) (hf : st.file = some i) :
    (st.fileEntries + blocks.length ≤ st.entriesPerFile →
      (writeManyI st t blocks).map (·.2) = some [(i, 1, blocks.length)] ∧
      (st.fileEntries + 1 < st.entriesPerFile →
        (writeManyI st t blocks).map (fun p => p.1.fileEntries) =
          some (st.fileEntries + 1))) ∧
    (st.entriesPerFile < st.fileEntries + blocks.length →
      ∀ st1 evs, writeManyI st t blocks = some (st1, evs) →
        (∀ ev ∈ evs, ev.2.1 = ev.2.2) ∧
        (evs.map (fun ev => ev.2.2)).sum = blocks.length) := by
  have hopen : openWriter st = st := openWriter_some st i hf
  constructor
  · intro hfits
    unfold writeManyI
    rw [hopen, if_pos hfits, hf]
    constructor
    · rfl
    · intro hroom
      have hpc := postCheck_no_flip
        ({ writeActive st (blocks.map (LogEntry.data t)) with
           fileEntries := st.fileEntries + 1 } : SegmentedFileStorage T)
        (by
          show ¬ ((writeActive st (blocks.map (LogEntry.data t))).entriesPerFile ≤
            st.fileEntries + 1)
          rw [writeActive_entriesPerFile]
          omega)
      rw [hpc]
      rfl
  · intro hsplit st1 evs h
    unfold writeManyI at h
    rw [hopen, if_neg (by omega)] at h
    rcases hrec : writeLoop t (blocks.length + 2) st blocks with - | ⟨st2, evs2⟩
    · rw [hrec] at h
      cases h
    · rw [hrec] at h
      simp only [Option.some.injEq, Prod.mk.injEq] at h
      obtain ⟨-, h2⟩ := h
      subst h2
      exact writeLoop_events t _ _ _ _ _ hrec

/-- C9 witness: on an empty open segment with threshold two, a one-block
batch records counter increment one, and the split of a three-block batch
records per-segment increments equal to the literal block counts, two then
one, summing to the batch size. -/
theorem c9_witness :
    ((writeManyI (⟨[], some 0, 0, 0, 2⟩ : SegmentedFileStorage Nat) 1 [9]).map (·.2) =
      some [(0, 1, 1)]) ∧
    (∀ ev ∈ [((0 : Nat), (2 : Nat), (2 : Nat)), (1, 1, 1)], ev.2.1 = ev.2.2) ∧
    ([((0 : Nat), (2 : Nat), (2 : Nat)), (1, 1, 1)].map (fun ev => ev.2.2)).sum = 3 := by
  refine ⟨?_, ?_, ?_⟩
  · exact ((c9_batch_counter_semantics Nat ⟨[], some 0, 0, 0, 2⟩ 1 [9] 0 rfl).1
      (by decide)).1
  · exact ((c9_batch_counter_semantics Nat ⟨[], some 0, 0, 0, 2⟩ 1 [5, 6, 7] 0 rfl).2
      (by decide) ⟨[(0, [.data 1 5, .data 1 6]), (1, [.data 1 7])], some 1, 1, 1, 2⟩
      [(0, 2, 2), (1, 1, 1)] (by decide)).1
  · exact ((c9_batch_counter_semantics Nat ⟨[], some 0, 0, 0, 2⟩ 1 [5, 6, 7] 0 rfl).2
      (by decide) ⟨[(0, [.data 1 5, .data 1 6]), (1, [.data 1 7])], some 1, 1, 1, 2⟩
      [(0, 2, 2), (1, 1, 1)] (by decide)).2

end TLog
